import Mathlib

/-!
Verification of the echo-probe engine (`ping` package, `src/ping.go`)
against its specification.

The Go code is shallowly embedded:
* `time.Duration` (an `int64`) is modelled as `ℤ`; none of the verified
  claims involves 64-bit overflow (RTT magnitudes are far below 2^63).
* Go's `/` on integers truncates toward zero; it is modelled by `Int.tdiv`.
* `float64` values are modelled by `GoFloat`: exact rationals plus the
  IEEE-754 non-finite values `nan`, `pinf`, `ninf`.  Rounding of finite
  arithmetic is abstracted to exact rational arithmetic; the zero-divisor
  behaviour (`0/0 = NaN`, `x/0 = ±Inf`) is preserved, since that is what
  the claims about the loss percentage are about.
* Observer hooks (`OnSetup`/`OnSend`/`OnLost`/`OnRecv`) neither read nor
  write the engine state and are omitted; `OnFinish` is modelled by the
  optional snapshot returned by `Finish`.
* The address fields (`laddr`, `raddr`) and the timing configuration
  (`Interval`, `Timeout`, `Verbose`) are fixed at construction and no
  claim mentions them, so they are left out of the state.
-/

namespace PingProof

/-- Go `time.Duration` (int64 nanoseconds), modelled as `ℤ`. -/
abbrev Duration := ℤ

/-- Go integer division (`/` on `int64`) truncates toward zero. -/
def goDiv (a b : ℤ) : ℤ := Int.tdiv a b

/-- Models Go `time.Duration(math.Sqrt(float64(x)))` for an integer `x`:
for `0 ≤ x < 2^52` the `float64` conversion is exact and truncating the
correctly rounded IEEE square root yields exactly the integer square root.
(`x < 0` is unreachable in the program: the Welford `M2` accumulator is
nonnegative; `Int.sqrt` returns `0` there.) -/
def goSqrtDuration (x : ℤ) : ℤ := Int.sqrt x

/-- A `float64` value: exact rational for the finite case, plus the
IEEE-754 non-finite values. -/
inductive GoFloat where
  | nan : GoFloat
  | pinf : GoFloat
  | ninf : GoFloat
  | val : ℚ → GoFloat
deriving DecidableEq, Repr

/-- IEEE-754 division on `GoFloat`: finite arithmetic is exact; a zero
divisor gives `NaN` for `0/0` and `±Inf` otherwise. -/
def GoFloat.div : GoFloat → GoFloat → GoFloat
  | GoFloat.val a, GoFloat.val b =>
      if b = 0 then
        (if a = 0 then GoFloat.nan else if 0 < a then GoFloat.pinf else GoFloat.ninf)
      else GoFloat.val (a / b)
  | GoFloat.val _, GoFloat.pinf => GoFloat.val 0
  | GoFloat.val _, GoFloat.ninf => GoFloat.val 0
  | GoFloat.pinf, GoFloat.val b => if 0 ≤ b then GoFloat.pinf else GoFloat.ninf
  | GoFloat.ninf, GoFloat.val b => if 0 ≤ b then GoFloat.ninf else GoFloat.pinf
  | _, _ => GoFloat.nan

/-- IEEE-754 multiplication on `GoFloat`. -/
def GoFloat.mul : GoFloat → GoFloat → GoFloat
  | GoFloat.val a, GoFloat.val b => GoFloat.val (a * b)
  | GoFloat.pinf, GoFloat.val b =>
      if b = 0 then GoFloat.nan else if 0 < b then GoFloat.pinf else GoFloat.ninf
  | GoFloat.val b, GoFloat.pinf =>
      if b = 0 then GoFloat.nan else if 0 < b then GoFloat.pinf else GoFloat.ninf
  | GoFloat.ninf, GoFloat.val b =>
      if b = 0 then GoFloat.nan else if 0 < b then GoFloat.ninf else GoFloat.pinf
  | GoFloat.val b, GoFloat.ninf =>
      if b = 0 then GoFloat.nan else if 0 < b then GoFloat.ninf else GoFloat.pinf
  | GoFloat.pinf, GoFloat.pinf => GoFloat.pinf
  | GoFloat.ninf, GoFloat.ninf => GoFloat.pinf
  | GoFloat.pinf, GoFloat.ninf => GoFloat.ninf
  | GoFloat.ninf, GoFloat.pinf => GoFloat.ninf
  | _, _ => GoFloat.nan

/-- The mutable engine state of the Go struct `Pinger` (src/ping.go). -/
structure Pinger where
  Count : ℤ
  PacketsSent : ℕ
  PacketsRecv : ℕ
  PacketsRecvDuplicates : ℕ
  minRtt : Duration
  maxRtt : Duration
  avgRtt : Duration
  stdDevRtt : Duration
  stddevm2 : Duration
  rtts : List Duration
  finished : Bool
deriving DecidableEq, Repr

/-- `NewPinger` (src/ping.go): all counters and the accumulator start at
the Go zero values, `finished` starts false. -/
def NewPinger (count : ℤ) : Pinger :=
  { Count := count
    PacketsSent := 0
    PacketsRecv := 0
    PacketsRecvDuplicates := 0
    minRtt := 0
    maxRtt := 0
    avgRtt := 0
    stdDevRtt := 0
    stddevm2 := 0
    rtts := []
    finished := false }

/-- `Pinger.updateStatistics` (src/ping.go): record one received reply's
round-trip time `rtt`.  Transcribed line by line: `PacketsRecv++`,
append to `rtts`, conditionally update `minRtt`/`maxRtt`, then the
Welford step in truncating `time.Duration` (int64) arithmetic, and
`stdDevRtt = Duration(math.Sqrt(float64(stddevm2 / pktCount)))`. -/
def updateStatistics (p : Pinger) (rtt : Duration) : Pinger :=
  let recv := p.PacketsRecv + 1
  let newRtts := p.rtts ++ [rtt]
  let newMin := if recv = 1 ∨ rtt < p.minRtt then rtt else p.minRtt
  let newMax := if rtt > p.maxRtt then rtt else p.maxRtt
  let pktCount : ℤ := (recv : ℤ)
  let delta := rtt - p.avgRtt
  let newAvg := p.avgRtt + goDiv delta pktCount
  let delta2 := rtt - newAvg
  let newM2 := p.stddevm2 + delta * delta2
  let newStdDev := goSqrtDuration (goDiv newM2 pktCount)
  { p with
    PacketsRecv := recv
    rtts := newRtts
    minRtt := newMin
    maxRtt := newMax
    avgRtt := newAvg
    stddevm2 := newM2
    stdDevRtt := newStdDev }

/-- The snapshot struct `Statistics` (field set as used in src/ping.go;
the two address strings are omitted — no claim concerns them). -/
structure Statistics where
  PacketsSent : ℕ
  PacketsRecv : ℕ
  PacketsRecvDuplicates : ℕ
  PacketLoss : GoFloat
  Rtts : List Duration
  MaxRtt : Duration
  MinRtt : Duration
  AvgRtt : Duration
  StdDevRtt : Duration
deriving DecidableEq, Repr

/-- `Pinger.Statistics` (src/ping.go): take a snapshot.
`loss := float64(sent - p.PacketsRecv) / float64(sent) * 100` — the
division is unguarded; `sent` and `PacketsRecv` are Go `int`s, so the
numerator is the (possibly negative) integer difference. -/
def Pinger.Statistics (p : Pinger) : Statistics :=
  let sent := p.PacketsSent
  let loss := GoFloat.mul
    (GoFloat.div (GoFloat.val (((sent : ℤ) - (p.PacketsRecv : ℤ) : ℤ) : ℚ))
      (GoFloat.val (sent : ℚ)))
    (GoFloat.val 100)
  { PacketsSent := sent
    PacketsRecv := p.PacketsRecv
    PacketsRecvDuplicates := p.PacketsRecvDuplicates
    PacketLoss := loss
    Rtts := p.rtts
    MaxRtt := p.maxRtt
    MinRtt := p.minRtt
    AvgRtt := p.avgRtt
    StdDevRtt := p.stdDevRtt }

/-- One probe attempt's outcome as seen by `Run`'s inner `ping` closure:
`none` = `p.Ping` returned an error (the probe is lost), `some rtt` =
a reply was received with round-trip time `rtt`. -/
abbrev Outcome := Option Duration

/-- The body of `Run`'s `ping` closure (src/ping.go): on success
`updateStatistics` records the reply; in both cases `p.PacketsSent++`
runs afterwards.  The `OnRecv`/`OnLost` hooks and the verbose log do not
touch engine state. -/
def pingStep (p : Pinger) (o : Outcome) : Pinger :=
  let p1 := match o with
    | some rtt => updateStatistics p rtt
    | none => p
  { p1 with PacketsSent := p1.PacketsSent + 1 }

/-- The intermediate state inside a successful `ping` body, after
`updateStatistics` has recorded the reply but before `p.PacketsSent++`
executes.  `PacketsSent++` is not protected by `statsMu`, so a
concurrent `Statistics()` call can observe this state. -/
def pingMid (p : Pinger) (rtt : Duration) : Pinger := updateStatistics p rtt

/-- `Run`'s main loop (src/ping.go):
`for count := p.Count; count != 0; { if count > 0 { count-- }; ping(p.PacketsSent); sleep }`,
driven by a finite trace of probe outcomes supplied by the environment.
The loop body never reads `p.finished`; iteration stops when the budget
counter reaches zero or the supplied trace is exhausted. -/
def runSteps : List Outcome → ℤ → Pinger → Pinger
  | [], _, p => p
  | o :: rest, count, p =>
      if count = 0 then p
      else runSteps rest (if 0 < count then count - 1 else count) (pingStep p o)

/-- `Pinger.Finish` (src/ping.go).  The guard `finishOnce` is a
PACKAGE-LEVEL `sync.Once`, shared by every `Pinger` value in the
process; `onceUsed` is its state.  Returns the once-state after the
call, the pinger after the call, and `some snapshot` exactly when the
`OnFinish` callback fired (with the snapshot it was handed). -/
def Finish (onceUsed : Bool) (p : Pinger) : Bool × Pinger × Option Statistics :=
  if onceUsed then (onceUsed, p, none)
  else
    let p' := { p with finished := true }
    (true, p', some p'.Statistics)

/-- `Pinger.Run` (src/ping.go): returns immediately if `p.finished`
(this check precedes the `defer p.Finish()`); otherwise runs the main
loop over the outcome trace and then calls `Finish`. -/
def Run (onceUsed : Bool) (p : Pinger) (outs : List Outcome) :
    Bool × Pinger × Option Statistics :=
  if p.finished then (onceUsed, p, none)
  else Finish onceUsed (runSteps outs p.Count p)

/-- The payload `bytes.Repeat([]byte("Ping"), 3)` used in `Pinger.Ping`. -/
def pingData : List ℕ :=
  [80, 105, 110, 103, 80, 105, 110, 103, 80, 105, 110, 103]

/-- The echo body struct `icmpEcho` as constructed in `Pinger.Ping`. -/
structure icmpEcho where
  ID : ℕ
  Seq : ℕ
  Data : List ℕ
deriving DecidableEq, Repr

/-- The message struct `icmpMessage` as constructed in `Pinger.Ping`
(`Typ` stands for the Go field `Type`). -/
structure icmpMessage where
  Typ : ℕ
  Code : ℕ
  SequenceNum : ℕ
  Body : icmpEcho
deriving DecidableEq, Repr

/-- Modelled from the spec: the ICMP type constants are declared in a
repository file that is not under src/.  The spec's glossary fixes IPv4
Echo Request as type 8; IPv6 Echo Request is type 128. -/
def icmpv4EchoRequest : ℕ := 8

/-- Modelled from the spec: IPv6 Echo Request type (see
`icmpv4EchoRequest`). -/
def icmpv6EchoRequest : ℕ := 128

/-- The `icmpMessage` literal that `Pinger.Ping` (src/ping.go) hands to
`Marshal()`:
`Type: icmpv4EchoRequest, Code: 0, SequenceNum: seq & 0xffff,`
`Body: &icmpEcho{ID: os.Getpid() & 0xffff, Seq: xseq, Data: ...}`
where `xseq` is the literal `1`.  `pid` and `seq` are nonnegative. -/
def buildEchoRequest (pid seq : ℕ) : icmpMessage :=
  { Typ := icmpv4EchoRequest
    Code := 0
    SequenceNum := seq &&& 0xffff
    Body := { ID := pid &&& 0xffff, Seq := 1, Data := pingData } }

/-- The receive loop of `Pinger.Ping` (src/ping.go), at the level of the
decoded messages delivered during one probe cycle: `continue` while the
decoded type is an Echo Request (IPv4 or IPv6); the first message of any
other type is accepted as the reply (`none` = the trace ended without a
terminating message, i.e. the read deadline fired). -/
def readLoop : List icmpMessage → Option icmpMessage
  | [] => none
  | m :: rest =>
      if m.Typ = icmpv4EchoRequest ∨ m.Typ = icmpv6EchoRequest then readLoop rest
      else some m

/-- `ipv4Payload` (src/ping.go).  Go's `b[hdrlen:]` panics when
`hdrlen > len(b)`; `none` models that panic. -/
def ipv4Payload (b : List ℕ) : Option (List ℕ) :=
  if b.length < 20 then some b
  else
    let hdrlen := (b.headI &&& 0x0f) * 4
    if hdrlen ≤ b.length then some (b.drop hdrlen) else none

/-- Record a whole list of received round-trip times, in arrival order
(the accumulator-level view of a run: one `updateStatistics` call per
received reply). -/
def recordAll (l : List Duration) (p : Pinger) : Pinger :=
  l.foldl updateStatistics p

/-- Spec-side naive two-pass mean of a sample list, in exact rationals. -/
def popMean (l : List Duration) : ℚ :=
  (l.map (fun x : Duration => (x : ℚ))).sum / l.length

/-- Spec-side naive two-pass population variance (`M2/n` with exact
arithmetic): mean of squared deviations from the mean. -/
def popVariance (l : List Duration) : ℚ :=
  (l.map (fun x : Duration => ((x : ℚ) - popMean l) ^ 2)).sum / l.length

/-! ### Helper lemmas -/

/-- `n & 0xffff` on a nonnegative Go integer is reduction mod 2^16. -/
theorem and_ffff (n : ℕ) : n &&& 65535 = n % 65536 := by
  have h := Nat.and_pow_two_sub_one_eq_mod n 16
  norm_num at h
  exact h

/-- Truncating division of a nonnegative dividend stays in `[0, a]`. -/
theorem goDiv_bounds_of_nonneg (a b : ℤ) (ha : 0 ≤ a) (hb : 0 ≤ b) :
    0 ≤ goDiv a b ∧ goDiv a b ≤ a := by
  refine ⟨Int.tdiv_nonneg ha hb, ?_⟩
  unfold goDiv
  rw [Int.tdiv_eq_ediv ha hb]
  exact Int.ediv_le_self b ha

/-- Truncating division of a nonpositive dividend stays in `[a, 0]`. -/
theorem goDiv_bounds_of_nonpos (a b : ℤ) (ha : a ≤ 0) (hb : 0 ≤ b) :
    a ≤ goDiv a b ∧ goDiv a b ≤ 0 := by
  have h := goDiv_bounds_of_nonneg (-a) b (by omega) hb
  have hne : goDiv a b = -goDiv (-a) b := by
    unfold goDiv
    rw [Int.neg_tdiv, neg_neg]
  rw [hne]
  constructor <;> linarith [h.1, h.2]

/-- The finished flag is carried through a loop iteration untouched and
does not influence any other field. -/
theorem pingStep_set_finished (p : Pinger) (o : Outcome) :
    pingStep { p with finished := true } o = { pingStep p o with finished := true } := by
  cases o <;> rfl

/-- The main loop never reads the finished flag: the packets-sent count of
a run is unchanged by setting it. -/
theorem runSteps_ignores_finished (outs : List Outcome) (count : ℤ) (p : Pinger) :
    (runSteps outs count { p with finished := true }).PacketsSent
      = (runSteps outs count p).PacketsSent := by
  induction outs generalizing count p with
  | nil => rfl
  | cons o rest ih =>
      by_cases hc : count = 0
      · simp [runSteps, hc]
      · simp only [runSteps, if_neg hc, pingStep_set_finished]
        exact ih _ _

/-- A zero budget runs the loop body zero times. -/
theorem runSteps_zero (outs : List Outcome) (p : Pinger) :
    runSteps outs 0 p = p := by
  cases outs <;> simp [runSteps]
/-! ### Claim theorems -/

/-- C2 (code bug witness): `finishOnce` is a package-level `sync.Once`
shared by every `Pinger` in the process.  With two engine instances, the
first `Finish()` consumes the global gate: it transitions the first
instance and fires its observer, but the second instance's `Finish()`
is then a no-op — it never transitions to `Finished` and its `OnFinish`
observer never fires, contradicting the per-instance exactly-once
contract. -/
theorem C2_finish_once_global_gate :
    (Finish false (NewPinger (-1))).2.2.isSome = true ∧
    (Finish false (NewPinger (-1))).2.1.finished = true ∧
    (Finish false (NewPinger (-1))).1 = true ∧
    (Finish (Finish false (NewPinger (-1))).1 (NewPinger (-1))).2.2 = none ∧
    (Finish (Finish false (NewPinger (-1))).1 (NewPinger (-1))).2.1.finished = false :=
  ⟨rfl, rfl, rfl, rfl, rfl⟩

/-- C3 (code bug witness): the main loop of `Run` never re-reads
`p.finished` — its send count is invariant under setting the flag — and
concretely, after one iteration followed by an external `Finish()` (the
engine is `Finished`), two further loop iterations still send two more
Echo Requests (`PacketsSent` reaches 3), not at most the one in flight. -/
theorem C3_finished_does_not_stop_loop :
    (∀ (outs : List Outcome) (count : ℤ) (p : Pinger),
        (runSteps outs count { p with finished := true }).PacketsSent
          = (runSteps outs count p).PacketsSent) ∧
    (Finish false (pingStep (NewPinger (-1)) none)).2.1.finished = true ∧
    (runSteps [none, none] (-1)
        (Finish false (pingStep (NewPinger (-1)) none)).2.1).PacketsSent = 3 :=
  ⟨runSteps_ignores_finished, rfl, rfl⟩

/-- C4 (counterexample): for probe sequence number 5 the message handed
to the wire codec carries `1`, not `5 = 5 mod 2^16`, in its echo body's
sequence-number field (`icmpEcho.Seq` is the hard-coded `xseq = 1`). -/
theorem C4_counterexample :
    (buildEchoRequest 1234 5).Body.Seq = 1 ∧
    ¬(buildEchoRequest 1234 5).Body.Seq = 5 % 65536 := by
  decide

/-- C4 (amended): the Echo Request handed to the codec carries the
process-scoped identifier (pid mod 2^16) in the echo body's ID field,
the constant `1` in the echo body's sequence-number field, and seq mod
2^16 only in the message-level `SequenceNum` field, with IPv4 Echo
Request type and code 0. -/
theorem C4_message_fields (pid seq : ℕ) :
    (buildEchoRequest pid seq).Typ = icmpv4EchoRequest ∧
    (buildEchoRequest pid seq).Code = 0 ∧
    (buildEchoRequest pid seq).Body.ID = pid % 65536 ∧
    (buildEchoRequest pid seq).Body.Seq = 1 ∧
    (buildEchoRequest pid seq).SequenceNum = seq % 65536 := by
  refine ⟨rfl, rfl, ?_, rfl, ?_⟩ <;>
    simp [buildEchoRequest, and_ffff]

/-- C8: the receive loop discards every decoded message whose type is an
Echo Request (IPv4 or IPv6) and terminates on the first decoded message
of any other type, accepting it as the reply — the accepted message `m`
is arbitrary, so in particular its echoed identifier and sequence number
need not match the outbound probe's. -/
theorem C8_read_loop (pre : List icmpMessage) (m : icmpMessage) (rest : List icmpMessage)
    (hpre : ∀ x ∈ pre, x.Typ = icmpv4EchoRequest ∨ x.Typ = icmpv6EchoRequest)
    (hm : ¬(m.Typ = icmpv4EchoRequest ∨ m.Typ = icmpv6EchoRequest)) :
    readLoop (pre ++ m :: rest) = some m := by
  induction pre with
  | nil => simp [readLoop, hm]
  | cons a t ih =>
      have ha := hpre a (by simp)
      simp only [List.cons_append, readLoop, if_pos ha]
      exact ih fun x hx => hpre x (by simp [hx])

/-- C8 witness: one reflected Echo Request (type 8) is skipped; the
following Echo Reply (type 0) with identifier 999 and sequence 999 —
matching nothing the probe sent — is accepted as the reply. -/
theorem C8_read_loop_witness :
    readLoop [⟨8, 0, 0, ⟨1, 1, []⟩⟩, ⟨0, 0, 0, ⟨999, 999, []⟩⟩]
      = some ⟨0, 0, 0, ⟨999, 999, []⟩⟩ :=
  C8_read_loop [⟨8, 0, 0, ⟨1, 1, []⟩⟩] ⟨0, 0, 0, ⟨999, 999, []⟩⟩ []
    (by decide) (by decide)

/-- C9 (counterexample): on the 20-byte buffer whose first byte is
`0x4F` (header-length nibble 15, i.e. a declared 60-byte header),
`ipv4Payload` does not return the bytes following the header — the Go
slice `b[60:]` on a 20-byte slice is out of range (a panic, modelled as
`none`). -/
theorem C9_counterexample :
    ipv4Payload (79 :: List.replicate 19 0) = none ∧
    20 ≤ (79 :: List.replicate 19 0).length := by
  decide

/-- C9 (amended): a buffer shorter than 20 bytes is returned unchanged,
and whenever the declared header length (low 4 bits of the first byte,
times 4) does not exceed the buffer, the byte suffix past the header is
returned; if it does exceed the buffer, the slice operation is out of
range instead of returning a value. -/
theorem C9_ipv4Payload (b : List ℕ) :
    (b.length < 20 → ipv4Payload b = some b) ∧
    (20 ≤ b.length → (b.headI &&& 0x0f) * 4 ≤ b.length →
      ipv4Payload b = some (b.drop ((b.headI &&& 0x0f) * 4))) := by
  constructor
  · intro h
    simp [ipv4Payload, h]
  · intro h1 h2
    unfold ipv4Payload
    rw [if_neg (by omega), if_pos h2]

/-- C9 witness: a 3-byte buffer comes back unchanged; a 21-byte buffer
with a normal `0x45` first byte (20-byte header) yields exactly the one
byte past the header. -/
theorem C9_ipv4Payload_witness :
    ipv4Payload [1, 2, 3] = some [1, 2, 3] ∧
    ipv4Payload (69 :: List.replicate 20 0) = some [0] := by
  refine ⟨(C9_ipv4Payload [1, 2, 3]).1 (by decide), ?_⟩
  have h := (C9_ipv4Payload (69 :: List.replicate 20 0)).2 (by decide) (by decide)
  rw [h]
  decide

/-- C10: with a probe-count budget of exactly 0, the main loop executes
zero times (the state after the loop is the fresh engine: no probe was
attempted), and `Run` finishes immediately: the global once-gate fires
the finish observer with a final snapshot reporting 0 packets sent,
0 received and no round-trip-time samples, and the engine is Finished. -/
theorem C10_zero_count_runs_nothing (outs : List Outcome) :
    runSteps outs 0 (NewPinger 0) = NewPinger 0 ∧
    Run false (NewPinger 0) outs
      = (true, { NewPinger 0 with finished := true },
          some ({ NewPinger 0 with finished := true } : Pinger).Statistics) ∧
    ({ NewPinger 0 with finished := true } : Pinger).Statistics.PacketsSent = 0 ∧
    ({ NewPinger 0 with finished := true } : Pinger).Statistics.PacketsRecv = 0 ∧
    ({ NewPinger 0 with finished := true } : Pinger).Statistics.Rtts = [] := by
  refine ⟨runSteps_zero outs _, ?_, rfl, rfl, rfl⟩
  show Run false (NewPinger 0) outs = _
  unfold Run
  rw [if_neg (by decide)]
  show Finish false (runSteps outs (NewPinger 0).Count (NewPinger 0)) = _
  rw [show (NewPinger 0).Count = 0 from rfl, runSteps_zero]
  rfl
/-- C5: the loss percentage of a snapshot is exactly
`(sent - received) / sent * 100` whenever `sent > 0`; when `sent = 0`
the unguarded IEEE division cannot crash and produces the non-finite
sentinel `NaN` (no reply recorded) or `-Inf` (a reply recorded in the
window before the sent counter increment). -/
theorem C5_packet_loss (p : Pinger) :
    (0 < p.PacketsSent →
      p.Statistics.PacketLoss
        = GoFloat.val ((((p.PacketsSent : ℤ) - (p.PacketsRecv : ℤ) : ℤ) : ℚ)
            / (p.PacketsSent : ℚ) * 100)) ∧
    (p.PacketsSent = 0 →
      p.Statistics.PacketLoss
        = if p.PacketsRecv = 0 then GoFloat.nan else GoFloat.ninf) := by
  constructor
  · intro h
    have hq : ((p.PacketsSent : ℚ)) ≠ 0 := by
      exact_mod_cast Nat.pos_iff_ne_zero.mp h
    simp [Pinger.Statistics, GoFloat.div, GoFloat.mul, hq]
  · intro h
    by_cases h0 : p.PacketsRecv = 0
    · simp [Pinger.Statistics, GoFloat.div, GoFloat.mul, h, h0]
    · have hneg : (((p.PacketsSent : ℤ) - (p.PacketsRecv : ℤ) : ℤ) : ℚ) < 0 := by
        have : 0 < p.PacketsRecv := Nat.pos_of_ne_zero h0
        rw [h]
        push_cast
        simp
        exact_mod_cast this
      have hk : ¬((p.PacketsRecv : ℚ) < 0) := not_lt.mpr (Nat.cast_nonneg _)
      simp [Pinger.Statistics, GoFloat.div, GoFloat.mul, h, h0,
        ne_of_lt hneg, not_lt.mpr (le_of_lt hneg), hk]
/-- C5 witness: a snapshot at 3 sent / 1 received reports 200/3 percent
loss; the fresh engine (0 sent, 0 received) reports the NaN sentinel. -/
theorem C5_packet_loss_witness :
    ({ NewPinger (-1) with PacketsSent := 3, PacketsRecv := 1 } : Pinger).Statistics.PacketLoss
      = GoFloat.val (200 / 3) ∧
    (NewPinger (-1)).Statistics.PacketLoss = GoFloat.nan := by
  constructor
  · have h := (C5_packet_loss
      { NewPinger (-1) with PacketsSent := 3, PacketsRecv := 1 }).1 (by decide)
    rw [h]
    norm_num
  · have h := (C5_packet_loss (NewPinger (-1))).2 rfl
    rw [h]
    decide

/-- One loop iteration always increments the sent counter by one. -/
theorem pingStep_PacketsSent (p : Pinger) (o : Outcome) :
    (pingStep p o).PacketsSent = p.PacketsSent + 1 := by
  cases o <;> rfl

/-- Recording a reply increments the received counter. -/
theorem updateStatistics_PacketsRecv (p : Pinger) (rtt : Duration) :
    (updateStatistics p rtt).PacketsRecv = p.PacketsRecv + 1 := rfl

/-- Recording a reply does not touch the sent counter. -/
theorem updateStatistics_PacketsSent (p : Pinger) (rtt : Duration) :
    (updateStatistics p rtt).PacketsSent = p.PacketsSent := rfl

/-- Recording a reply appends its round-trip time to the sample list. -/
theorem updateStatistics_rtts (p : Pinger) (rtt : Duration) :
    (updateStatistics p rtt).rtts = p.rtts ++ [rtt] := rfl

/-- A lost probe leaves the received counter alone. -/
theorem pingStep_none_PacketsRecv (p : Pinger) :
    (pingStep p none).PacketsRecv = p.PacketsRecv := rfl

/-- A successful probe increments the received counter. -/
theorem pingStep_some_PacketsRecv (p : Pinger) (rtt : Duration) :
    (pingStep p (some rtt)).PacketsRecv = p.PacketsRecv + 1 := rfl

/-- A lost probe leaves the sample list alone. -/
theorem pingStep_none_rtts (p : Pinger) :
    (pingStep p none).rtts = p.rtts := rfl

/-- A successful probe appends its round-trip time to the sample list. -/
theorem pingStep_some_rtts (p : Pinger) (rtt : Duration) :
    (pingStep p (some rtt)).rtts = p.rtts ++ [rtt] := rfl

/-- Counter and sample bookkeeping of a whole sequence of loop
iterations: sent grows by the number of attempts, received by the number
of successful outcomes, and the sample list is extended by the received
round-trip times in arrival order. -/
theorem foldl_pingStep_spec (outs : List Outcome) (p : Pinger) :
    (List.foldl pingStep p outs).PacketsSent = p.PacketsSent + outs.length ∧
    (List.foldl pingStep p outs).PacketsRecv = p.PacketsRecv + (outs.filterMap id).length ∧
    (List.foldl pingStep p outs).rtts = p.rtts ++ outs.filterMap id := by
  induction outs generalizing p with
  | nil => simp
  | cons o rest ih =>
      obtain ⟨h1, h2, h3⟩ := ih (pingStep p o)
      rw [List.foldl_cons] at *
      refine ⟨?_, ?_, ?_⟩
      · rw [h1, pingStep_PacketsSent, List.length_cons]
        omega
      · cases o with
        | none =>
            rw [h2, pingStep_none_PacketsRecv]
            simp [List.filterMap_cons]
        | some rtt =>
            rw [h2, pingStep_some_PacketsRecv]
            simp [List.filterMap_cons]
            omega
      · cases o with
        | none =>
            rw [h3, pingStep_none_rtts]
            simp [List.filterMap_cons]
        | some rtt =>
            rw [h3, pingStep_some_rtts]
            simp [List.filterMap_cons]

/-- When the budget does not bite (negative budget, or at least as large
as the observed trace), the loop processes the whole trace. -/
theorem runSteps_eq_foldl (outs : List Outcome) (count : ℤ) (p : Pinger)
    (h : count < 0 ∨ (outs.length : ℤ) ≤ count) :
    runSteps outs count p = List.foldl pingStep p outs := by
  induction outs generalizing count p with
  | nil => rfl
  | cons o rest ih =>
      have hlen : ((o :: rest).length : ℤ) = (rest.length : ℤ) + 1 := by
        push_cast [List.length_cons]
        ring
      have hc : count ≠ 0 := by
        rcases h with h | h
        · omega
        · rw [hlen] at h
          omega
      simp only [runSteps, if_neg hc, List.foldl_cons]
      apply ih
      rcases h with h | h
      · have hng : ¬(0 < count) := by omega
        rw [if_neg hng]
        left
        exact h
      · rw [hlen] at h
        have hpos : 0 < count := by omega
        rw [if_pos hpos]
        right
        omega

/-- C1 (counterexample): the state in which the very first reply has
been recorded by `updateStatistics` but `PacketsSent++` has not yet run
is reachable (`PacketsSent++` is outside the `statsMu` lock), and a
snapshot taken there reports received = 1 > 0 = sent. -/
theorem C1_counterexample :
    (pingMid (NewPinger (-1)) 5).Statistics.PacketsSent
      < (pingMid (NewPinger (-1)) 5).Statistics.PacketsRecv := by
  decide

/-- C1 (amended): for every run of N probe attempts with R received
replies, the snapshot at every probe-attempt boundary satisfies
received = R ≤ sent = N and carries exactly the R round-trip samples in
arrival order; in the window between a reply being recorded and the
sent counter being incremented, a snapshot can exceed this by exactly
the one in-flight reply (received ≤ sent + 1). -/
theorem C1_run_statistics (outs : List Outcome) (count : ℤ)
    (h : count < 0 ∨ (outs.length : ℤ) ≤ count) :
    ((runSteps outs count (NewPinger count)).Statistics.PacketsSent = outs.length ∧
     (runSteps outs count (NewPinger count)).Statistics.PacketsRecv
       = (outs.filterMap id).length ∧
     (runSteps outs count (NewPinger count)).Statistics.Rtts = outs.filterMap id) ∧
    (runSteps outs count (NewPinger count)).Statistics.PacketsRecv
      ≤ (runSteps outs count (NewPinger count)).Statistics.PacketsSent ∧
    (∀ rtt : Duration,
      (pingMid (runSteps outs count (NewPinger count)) rtt).PacketsRecv
        ≤ (pingMid (runSteps outs count (NewPinger count)) rtt).PacketsSent + 1) := by
  have he := runSteps_eq_foldl outs count (NewPinger count) h
  obtain ⟨h1, h2, h3⟩ := foldl_pingStep_spec outs (NewPinger count)
  have hle : (outs.filterMap id).length ≤ outs.length :=
    List.length_filterMap_le id outs
  have hzs : (NewPinger count).PacketsSent = 0 := rfl
  have hzr : (NewPinger count).PacketsRecv = 0 := rfl
  have hzl : (NewPinger count).rtts = [] := rfl
  rw [hzs] at h1
  rw [hzr] at h2
  rw [hzl] at h3
  rw [he]
  refine ⟨⟨?_, ?_, ?_⟩, ?_, ?_⟩
  · simp only [Pinger.Statistics]
    omega
  · simp only [Pinger.Statistics]
    omega
  · simp only [Pinger.Statistics]
    simpa using h3
  · simp only [Pinger.Statistics]
    omega
  · intro rtt
    simp only [pingMid, updateStatistics_PacketsRecv, updateStatistics_PacketsSent]
    omega

/-- C1 witness: the two-attempt trace "reply with RTT 5, then a loss"
ends with sent = 2, received = 1 and the single sample [5]. -/
theorem C1_run_statistics_witness :
    (runSteps [some 5, none] (-1) (NewPinger (-1))).Statistics.PacketsSent = 2 ∧
    (runSteps [some 5, none] (-1) (NewPinger (-1))).Statistics.PacketsRecv = 1 ∧
    (runSteps [some 5, none] (-1) (NewPinger (-1))).Statistics.Rtts = [5] := by
  obtain ⟨⟨h1, h2, h3⟩, -, -⟩ := C1_run_statistics [some 5, none] (-1) (Or.inl (by decide))
  exact ⟨by rw [h1]; decide, by rw [h2]; decide, by rw [h3]; decide⟩
/-- C6 (counterexample): for the sample sequence [1, 2] the naive
two-pass population variance is 1/4, i.e. the population standard
deviation is 1/2, but the accumulator — which runs Welford's recurrence
in truncating integer `time.Duration` arithmetic, not floating point —
reports a standard deviation of 0.  The discrepancy 1/2 is a truncation
error, orders of magnitude beyond floating-point tolerance at this
magnitude. -/
theorem C6_counterexample :
    (updateStatistics (updateStatistics (NewPinger (-1)) 1) 2).stdDevRtt = 0 ∧
    popVariance [1, 2] = (1 / 2 : ℚ) ^ 2 ∧
    (((updateStatistics (updateStatistics (NewPinger (-1)) 1) 2).stdDevRtt : ℚ)
      ≠ 1 / 2) := by
  refine ⟨by decide, by norm_num [popVariance, popMean], ?_⟩
  have h : (updateStatistics (updateStatistics (NewPinger (-1)) 1) 2).stdDevRtt = 0 := by
    decide
  rw [h]
  norm_num

/-- Recording one further sample equal to the running mean leaves mean,
`M2` and the reported standard deviation at their fixed point. -/
theorem updateStatistics_const_step (p : Pinger) (c : Duration)
    (havg : p.avgRtt = c) (hm2 : p.stddevm2 = 0) :
    (updateStatistics p c).avgRtt = c ∧
    (updateStatistics p c).stddevm2 = 0 ∧
    (updateStatistics p c).stdDevRtt = 0 := by
  have hd : c - p.avgRtt = 0 := by rw [havg]; ring
  refine ⟨?_, ?_, ?_⟩
  · show p.avgRtt + goDiv (c - p.avgRtt) _ = c
    rw [hd, havg]
    simp [goDiv, Int.zero_tdiv]
  · show p.stddevm2 + (c - p.avgRtt) * _ = 0
    rw [hd, hm2]
    ring
  · show goSqrtDuration (goDiv (p.stddevm2 + (c - p.avgRtt) * _) _) = 0
    rw [hd, hm2]
    simp [goDiv, Int.zero_tdiv, goSqrtDuration, Int.sqrt]

/-- Replicated recording of a constant sample keeps the accumulator at
the fixed point mean = c, `M2` = 0, stddev = 0. -/
theorem recordAll_const_invariant (c : Duration) (m : ℕ) (p : Pinger)
    (havg : p.avgRtt = c) (hm2 : p.stddevm2 = 0) (hsd : p.stdDevRtt = 0) :
    (recordAll (List.replicate m c) p).avgRtt = c ∧
    (recordAll (List.replicate m c) p).stddevm2 = 0 ∧
    (recordAll (List.replicate m c) p).stdDevRtt = 0 := by
  induction m generalizing p with
  | zero => exact ⟨havg, hm2, hsd⟩
  | succ k ih =>
      rw [List.replicate_succ]
      have hstep : recordAll (c :: List.replicate k c) p
          = recordAll (List.replicate k c) (updateStatistics p c) := rfl
      rw [hstep]
      obtain ⟨a1, a2, a3⟩ := updateStatistics_const_step p c havg hm2
      exact ih (updateStatistics p c) a1 a2 a3

/-- C6 (amended): the accumulator maintains Welford's single-pass
recurrence in truncating integer duration arithmetic, so its reported
standard deviation agrees with the naive two-pass population value only
up to integer-truncation error; on a constant multiset the two agree
exactly (both are 0). -/
theorem C6_constant_samples (c : Duration) (n : ℕ) (h : 1 ≤ n) :
    (recordAll (List.replicate n c) (NewPinger (-1))).stdDevRtt = 0 ∧
    popVariance (List.replicate n c) = 0 := by
  constructor
  · obtain ⟨m, rfl⟩ : ∃ m, n = m + 1 := ⟨n - 1, by omega⟩
    rw [List.replicate_succ]
    have hstep : recordAll (c :: List.replicate m c) (NewPinger (-1))
        = recordAll (List.replicate m c) (updateStatistics (NewPinger (-1)) c) := rfl
    rw [hstep]
    have h1 : (updateStatistics (NewPinger (-1)) c).avgRtt = c := by
      show (NewPinger (-1)).avgRtt + goDiv (c - (NewPinger (-1)).avgRtt) _ = c
      show (0 : ℤ) + goDiv (c - 0) 1 = c
      simp [goDiv, Int.tdiv_one]
    have h2 : (updateStatistics (NewPinger (-1)) c).stddevm2 = 0 := by
      show (NewPinger (-1)).stddevm2
          + (c - (NewPinger (-1)).avgRtt) * (c - (updateStatistics (NewPinger (-1)) c).avgRtt) = 0
      rw [h1]
      show (0 : ℤ) + (c - 0) * (c - c) = 0
      ring
    have h3 : (updateStatistics (NewPinger (-1)) c).stdDevRtt = 0 := by
      show goSqrtDuration (goDiv ((updateStatistics (NewPinger (-1)) c).stddevm2) _) = 0
      rw [h2]
      simp [goDiv, Int.zero_tdiv, goSqrtDuration, Int.sqrt]
    exact (recordAll_const_invariant c m _ h1 h2 h3).2.2
  · have hn : ((n : ℚ)) ≠ 0 := Nat.cast_ne_zero.mpr (by omega)
    have hmean : popMean (List.replicate n c) = (c : ℚ) := by
      unfold popMean
      rw [List.map_replicate, List.sum_replicate, List.length_replicate, nsmul_eq_mul]
      exact mul_div_cancel_left₀ _ hn
    unfold popVariance
    rw [hmean, List.map_replicate, List.length_replicate]
    simp

/-- C6 witness: two samples of 7 give reported stddev 0 and two-pass
population variance 0. -/
theorem C6_constant_samples_witness :
    (recordAll (List.replicate 2 7) (NewPinger (-1))).stdDevRtt = 0 ∧
    popVariance (List.replicate 2 7) = 0 :=
  C6_constant_samples 7 2 (by decide)
/-- A min-fold never exceeds its initial accumulator. -/
theorem foldl_min_le_init (t : List Duration) (a : Duration) :
    t.foldl min a ≤ a := by
  induction t generalizing a with
  | nil => exact le_refl a
  | cons y t ih =>
      calc (y :: t).foldl min a = t.foldl min (min a y) := rfl
        _ ≤ min a y := ih (min a y)
        _ ≤ a := min_le_left a y

/-- A min-fold is a lower bound of the folded list. -/
theorem foldl_min_le_mem (t : List Duration) (a x : Duration) (hx : x ∈ t) :
    t.foldl min a ≤ x := by
  induction t generalizing a with
  | nil => cases hx
  | cons y t ih =>
      rcases List.mem_cons.mp hx with rfl | hx
      · calc (x :: t).foldl min a = t.foldl min (min a x) := rfl
          _ ≤ min a x := foldl_min_le_init t (min a x)
          _ ≤ x := min_le_right a x
      · exact ih (min a y) hx

/-- A min-fold returns either its initial accumulator or a list member. -/
theorem foldl_min_mem (t : List Duration) (a : Duration) :
    t.foldl min a = a ∨ t.foldl min a ∈ t := by
  induction t generalizing a with
  | nil => exact Or.inl rfl
  | cons y t ih =>
      rcases ih (min a y) with h | h
      · rcases min_choice a y with h2 | h2
        · exact Or.inl (by rw [List.foldl_cons, h, h2])
        · exact Or.inr (by rw [List.foldl_cons, h, h2]; exact List.mem_cons_self y t)
      · exact Or.inr (List.mem_cons_of_mem y h)

/-- A max-fold is at least its initial accumulator. -/
theorem foldl_max_ge_init (t : List Duration) (a : Duration) :
    a ≤ t.foldl max a := by
  induction t generalizing a with
  | nil => exact le_refl a
  | cons y t ih =>
      calc a ≤ max a y := le_max_left a y
        _ ≤ t.foldl max (max a y) := ih (max a y)
        _ = (y :: t).foldl max a := rfl

/-- A max-fold is an upper bound of the folded list. -/
theorem foldl_max_ge_mem (t : List Duration) (a x : Duration) (hx : x ∈ t) :
    x ≤ t.foldl max a := by
  induction t generalizing a with
  | nil => cases hx
  | cons y t ih =>
      rcases List.mem_cons.mp hx with rfl | hx
      · calc x ≤ max a x := le_max_right a x
          _ ≤ t.foldl max (max a x) := foldl_max_ge_init t (max a x)
          _ = (x :: t).foldl max a := rfl
      · exact ih (max a y) hx

/-- A max-fold returns either its initial accumulator or a list member. -/
theorem foldl_max_mem (t : List Duration) (a : Duration) :
    t.foldl max a = a ∨ t.foldl max a ∈ t := by
  induction t generalizing a with
  | nil => exact Or.inl rfl
  | cons y t ih =>
      rcases ih (max a y) with h | h
      · rcases max_choice a y with h2 | h2
        · exact Or.inl (by rw [List.foldl_cons, h, h2])
        · exact Or.inr (by rw [List.foldl_cons, h, h2]; exact List.mem_cons_self y t)
      · exact Or.inr (List.mem_cons_of_mem y h)

/-- The running minimum field after an update. -/
theorem updateStatistics_minRtt (p : Pinger) (x : Duration) :
    (updateStatistics p x).minRtt
      = if p.PacketsRecv + 1 = 1 ∨ x < p.minRtt then x else p.minRtt := rfl

/-- The running maximum field after an update. -/
theorem updateStatistics_maxRtt (p : Pinger) (x : Duration) :
    (updateStatistics p x).maxRtt = if x > p.maxRtt then x else p.maxRtt := rfl

/-- The running (truncated Welford) mean field after an update. -/
theorem updateStatistics_avgRtt (p : Pinger) (x : Duration) :
    (updateStatistics p x).avgRtt
      = p.avgRtt + goDiv (x - p.avgRtt) ((p.PacketsRecv : ℤ) + 1) := by
  show p.avgRtt + goDiv (x - p.avgRtt) ((p.PacketsRecv + 1 : ℕ) : ℤ) = _
  push_cast
  rfl

/-- One update preserves the accumulator invariant: with at least one
reply already recorded, the minimum becomes `min` of old and new, the
maximum `max` of old and new, and the truncated-mean stays bracketed
between them. -/
theorem updateStatistics_invariant (p : Pinger) (x : Duration)
    (hrecv : 1 ≤ p.PacketsRecv)
    (hmin : p.minRtt ≤ p.avgRtt) (hmax : p.avgRtt ≤ p.maxRtt) :
    (updateStatistics p x).PacketsRecv = p.PacketsRecv + 1 ∧
    (updateStatistics p x).minRtt = min p.minRtt x ∧
    (updateStatistics p x).maxRtt = max p.maxRtt x ∧
    (updateStatistics p x).minRtt ≤ (updateStatistics p x).avgRtt ∧
    (updateStatistics p x).avgRtt ≤ (updateStatistics p x).maxRtt := by
  have hone : ¬(p.PacketsRecv + 1 = 1) := by omega
  have hminx : (updateStatistics p x).minRtt = min p.minRtt x := by
    rw [updateStatistics_minRtt]
    by_cases hc : x < p.minRtt
    · rw [if_pos (Or.inr hc), min_eq_right (le_of_lt hc)]
    · have : ¬(p.PacketsRecv + 1 = 1 ∨ x < p.minRtt) := by tauto
      rw [if_neg this, min_eq_left (not_lt.mp hc)]
  have hmaxx : (updateStatistics p x).maxRtt = max p.maxRtt x := by
    rw [updateStatistics_maxRtt]
    by_cases hc : x > p.maxRtt
    · rw [if_pos hc, max_eq_right (le_of_lt hc)]
    · rw [if_neg hc, max_eq_left (not_lt.mp hc)]
  have hnn : (0 : ℤ) ≤ (p.PacketsRecv : ℤ) + 1 := by positivity
  have havg : min p.minRtt x ≤ (updateStatistics p x).avgRtt
      ∧ (updateStatistics p x).avgRtt ≤ max p.maxRtt x := by
    rw [updateStatistics_avgRtt]
    by_cases hd : p.avgRtt ≤ x
    · obtain ⟨hb1, hb2⟩ := goDiv_bounds_of_nonneg (x - p.avgRtt) _ (by linarith) hnn
      constructor
      · calc min p.minRtt x ≤ p.minRtt := min_le_left _ _
          _ ≤ p.avgRtt := hmin
          _ ≤ p.avgRtt + goDiv (x - p.avgRtt) ((p.PacketsRecv : ℤ) + 1) := by linarith
      · calc p.avgRtt + goDiv (x - p.avgRtt) ((p.PacketsRecv : ℤ) + 1) ≤ x := by linarith
          _ ≤ max p.maxRtt x := le_max_right _ _
    · have hd2 : x < p.avgRtt := not_le.mp hd
      obtain ⟨hb1, hb2⟩ := goDiv_bounds_of_nonpos (x - p.avgRtt) _ (by linarith) hnn
      constructor
      · calc min p.minRtt x ≤ x := min_le_right _ _
          _ ≤ p.avgRtt + goDiv (x - p.avgRtt) ((p.PacketsRecv : ℤ) + 1) := by linarith
      · calc p.avgRtt + goDiv (x - p.avgRtt) ((p.PacketsRecv : ℤ) + 1) ≤ p.avgRtt := by linarith
          _ ≤ p.maxRtt := hmax
          _ ≤ max p.maxRtt x := le_max_left _ _
  exact ⟨rfl, hminx, hmaxx, by rw [hminx]; exact havg.1, by rw [hmaxx]; exact havg.2⟩

/-- Folding the accumulator over further samples: the minimum and
maximum fields are the min/max folds of the samples, and the
truncated-mean stays bracketed between them. -/
theorem recordAll_invariant (l : List Duration) (p : Pinger)
    (hrecv : 1 ≤ p.PacketsRecv)
    (hmin : p.minRtt ≤ p.avgRtt) (hmax : p.avgRtt ≤ p.maxRtt) :
    (recordAll l p).minRtt = l.foldl min p.minRtt ∧
    (recordAll l p).maxRtt = l.foldl max p.maxRtt ∧
    (recordAll l p).minRtt ≤ (recordAll l p).avgRtt ∧
    (recordAll l p).avgRtt ≤ (recordAll l p).maxRtt := by
  induction l generalizing p with
  | nil => exact ⟨rfl, rfl, hmin, hmax⟩
  | cons x t ih =>
      obtain ⟨a1, a2, a3, a4, a5⟩ := updateStatistics_invariant p x hrecv hmin hmax
      have hstep : recordAll (x :: t) p = recordAll t (updateStatistics p x) := rfl
      obtain ⟨b1, b2, b3, b4⟩ := ih (updateStatistics p x) (by omega) a4 a5
      refine ⟨?_, ?_, ?_, ?_⟩
      · rw [hstep, b1, a2, List.foldl_cons]
      · rw [hstep, b2, a3, List.foldl_cons]
      · rw [hstep]; exact b3
      · rw [hstep]; exact b4

/-- C7: after any nonempty run of recorded replies with nonnegative
round-trip times, the accumulator's minimum is the least recorded
sample, its maximum the greatest, and the incrementally maintained
Welford mean lies between them: min ≤ mean ≤ max. -/
theorem C7_min_mean_max (l : List Duration) (hne : l ≠ [])
    (hnn : ∀ x ∈ l, 0 ≤ x) :
    (recordAll l (NewPinger (-1))).minRtt ∈ l ∧
    (∀ x ∈ l, (recordAll l (NewPinger (-1))).minRtt ≤ x) ∧
    (recordAll l (NewPinger (-1))).maxRtt ∈ l ∧
    (∀ x ∈ l, x ≤ (recordAll l (NewPinger (-1))).maxRtt) ∧
    (recordAll l (NewPinger (-1))).minRtt ≤ (recordAll l (NewPinger (-1))).avgRtt ∧
    (recordAll l (NewPinger (-1))).avgRtt ≤ (recordAll l (NewPinger (-1))).maxRtt := by
  obtain ⟨x, t, rfl⟩ : ∃ x t, l = x :: t := by
    cases l with
    | nil => exact absurd rfl hne
    | cons x t => exact ⟨x, t, rfl⟩
  have hx0 : (0 : ℤ) ≤ x := hnn x (List.mem_cons_self x t)
  set q := updateStatistics (NewPinger (-1)) x with hq
  have hqrecv : q.PacketsRecv = 1 := rfl
  have hqmin : q.minRtt = x := rfl
  have hqmax : q.maxRtt = x := by
    rw [hq, updateStatistics_maxRtt]
    show (if x > (0 : ℤ) then x else (0 : ℤ)) = x
    by_cases hc : x > 0
    · rw [if_pos hc]
    · rw [if_neg hc]
      have hc2 : x ≤ 0 := not_lt.mp hc
      linarith
  have hqavg : q.avgRtt = x := by
    rw [hq, updateStatistics_avgRtt]
    show (0 : ℤ) + goDiv (x - 0) ((0 : ℤ) + 1) = x
    simp [goDiv, Int.tdiv_one]
  have hstep : recordAll (x :: t) (NewPinger (-1)) = recordAll t q := rfl
  obtain ⟨b1, b2, b3, b4⟩ := recordAll_invariant t q (by omega)
    (by rw [hqmin, hqavg]) (by rw [hqmax, hqavg])
  rw [hqmin] at b1
  rw [hqmax] at b2
  refine ⟨?_, ?_, ?_, ?_, ?_, ?_⟩
  · rw [hstep, b1]
    rcases foldl_min_mem t x with h | h
    · rw [h]; exact List.mem_cons_self x t
    · exact List.mem_cons_of_mem x h
  · intro y hy
    rw [hstep, b1]
    rcases List.mem_cons.mp hy with rfl | hy
    · exact foldl_min_le_init t y
    · exact foldl_min_le_mem t x y hy
  · rw [hstep, b2]
    rcases foldl_max_mem t x with h | h
    · rw [h]; exact List.mem_cons_self x t
    · exact List.mem_cons_of_mem x h
  · intro y hy
    rw [hstep, b2]
    rcases List.mem_cons.mp hy with rfl | hy
    · exact foldl_max_ge_init t y
    · exact foldl_max_ge_mem t x y hy
  · rw [hstep]; exact b3
  · rw [hstep]; exact b4

/-- C7 witness: for the sample sequence [5, 3] the accumulator reports
min 3, truncated mean 4 and max 5, and min ≤ mean ≤ max holds. -/
theorem C7_min_mean_max_witness :
    (recordAll [5, 3] (NewPinger (-1))).minRtt
      ≤ (recordAll [5, 3] (NewPinger (-1))).avgRtt ∧
    (recordAll [5, 3] (NewPinger (-1))).avgRtt
      ≤ (recordAll [5, 3] (NewPinger (-1))).maxRtt ∧
    (recordAll [5, 3] (NewPinger (-1))).minRtt ∈ [5, 3] := by
  obtain ⟨m1, -, -, -, a, b⟩ := C7_min_mean_max [5, 3] (by decide) (by decide)
  exact ⟨a, b, m1⟩
end PingProof
